import Mathlib

set_option maxRecDepth 8000

/-! Shallow embedding of src/splitter.py (class VideoSplitter).

Times and durations are modelled as exact rationals. Python strings are
modelled as lists of characters, with executable models of the built-in
str.split, str.strip, str.join and int() operations used by the source.
Dictionaries with the keys start, end, text become the Caption structure. -/

abbrev PyStr := List Char

/-- pyStrip models Python str.strip(): remove leading and trailing whitespace. -/
def pyStrip (s : PyStr) : PyStr :=
  ((s.dropWhile Char.isWhitespace).reverse.dropWhile Char.isWhitespace).reverse

/-- pySplitAux models Python str.split(sep) for a non-empty separator: scan left to
right, cut at each non-overlapping occurrence of sep, keeping empty pieces. The
fuel argument only drives the recursion; fuel equal to the length of the scanned
string is always enough, since every step consumes at least one character. -/
def pySplitAux (sep : PyStr) : ℕ → PyStr → PyStr → List PyStr
  | 0, _, cur => [cur.reverse]
  | _ + 1, [], cur => [cur.reverse]
  | fuel + 1, c :: rest, cur =>
    if (c :: rest).take sep.length = sep then
      cur.reverse :: pySplitAux sep fuel ((c :: rest).drop sep.length) []
    else
      pySplitAux sep fuel rest (c :: cur)

/-- pySplit models Python str.split(sep) for a non-empty separator string. -/
def pySplit (sep s : PyStr) : List PyStr :=
  pySplitAux sep s.length s []

/-- digitVal: value of an ASCII decimal digit, none for any other character. -/
def digitVal (c : Char) : Option ℕ :=
  if c.isDigit then some (c.toNat - 48) else none

/-- pyIntDigits: value of a non-empty string of decimal digits, none otherwise. -/
def pyIntDigits : PyStr → Option ℕ
  | [] => none
  | l =>
    l.foldl
      (fun acc c =>
        match acc, digitVal c with
        | some n, some d => some (10 * n + d)
        | _, _ => none)
      (some 0)

/-- pyInt models Python int(str): surrounding whitespace is ignored, then an
optional sign followed by decimal digits (digit-grouping underscores are not
modelled). A failing conversion (ValueError) is none. -/
def pyInt (s : PyStr) : Option ℤ :=
  match pyStrip s with
  | '-' :: rest => (pyIntDigits rest).map (fun n => -(n : ℤ))
  | '+' :: rest => (pyIntDigits rest).map (fun n => (n : ℤ))
  | t => (pyIntDigits t).map (fun n => (n : ℤ))

/-- nlSep: the separator used by block.strip().split of the source. -/
def nlSep : PyStr := ['\n']

/-- blankSep: the blank-line block separator used on the whole file content. -/
def blankSep : PyStr := ['\n', '\n']

/-- arrowSep: the SRT timestamp separator token. -/
def arrowSep : PyStr := [' ', '-', '-', '>', ' ']

/-- colonSep: the field separator inside an SRT time token. -/
def colonSep : PyStr := [':']

/-- commaSep: the seconds/milliseconds separator inside an SRT time token. -/
def commaSep : PyStr := [',']

/-- spaceSep: the joiner for the text lines of a block. -/
def spaceSep : PyStr := [' ']

/-- Caption models the subtitle dictionary built by _parse_srt_file, with the keys
start, end and text. The end key is a Lean keyword, so the field is named stop. -/
structure Caption where
  start : ℚ
  stop : ℚ
  text : PyStr
deriving DecidableEq

/-- time_to_seconds embeds VideoSplitter._time_to_seconds: h, m, s = split on the
colon (exactly three parts, else the unpacking raises), s, ms = s split on the
comma (exactly two parts), then integer conversions; any raised error is caught
by the function's own try/except and yields 0.0. -/
def time_to_seconds (timeStr : PyStr) : ℚ :=
  match pySplit colonSep timeStr with
  | [h, m, sms] =>
    match pySplit commaSep sms with
    | [s, ms] =>
      match pyInt h, pyInt m, pyInt s, pyInt ms with
      | some hv, some mv, some sv, some msv =>
        (hv : ℚ) * 3600 + (mv : ℚ) * 60 + (sv : ℚ) + (msv : ℚ) / 1000
      | _, _, _, _ => 0
    | _ => 0
  | _ => 0

/-- parseBlocks embeds the block loop of VideoSplitter._parse_srt_file. A block
with fewer than three lines is skipped and the loop continues. A time line that
does not split into exactly two parts around the arrow makes the tuple unpacking
raise ValueError; the single try/except around the whole loop catches it, so the
function returns the entries collected so far and later blocks are lost. -/
def parseBlocks : List PyStr → List Caption → List Caption
  | [], acc => acc
  | block :: rest, acc =>
    match pySplit nlSep (pyStrip block) with
    | _ :: timeLine :: textHead :: textTail =>
      match pySplit arrowSep timeLine with
      | [startTok, endTok] =>
        parseBlocks rest
          (acc ++ [⟨time_to_seconds startTok, time_to_seconds endTok,
            List.intercalate spaceSep (textHead :: textTail)⟩])
      | _ => acc
    | _ => parseBlocks rest acc

/-- parse_srt_file embeds VideoSplitter._parse_srt_file. The argument none stands
for a transcript whose read itself raised (a wholly unreadable file); the except
branch then returns the empty subtitle list. -/
def parse_srt_file : Option PyStr → List Caption
  | none => []
  | some content => parseBlocks (pySplit blankSep (pyStrip content)) []

/-- styleStandard: the standard style name. -/
def styleStandard : String := "standard"

/-- styleMinimal: the minimal style name. -/
def styleMinimal : String := "minimal"

/-- styleBold: the bold style name. -/
def styleBold : String := "bold"

/-- styleOutline: the outline style name. -/
def styleOutline : String := "outline"

/-- colorWhite: the white colour string of the source tables. -/
def colorWhite : String := "white"

/-- colorLightgray: the colour string the source maps the minimal style to. -/
def colorLightgray : String := "lightgray"

/-- colorBlack: the black colour string of the source tables. -/
def colorBlack : String := "black"

/-- fontArial: the Arial font name. -/
def fontArial : String := "Arial"

/-- fontHelvetica: the Helvetica font name. -/
def fontHelvetica : String := "Helvetica"

/-- fontArialBold: the Arial-Bold font name. -/
def fontArialBold : String := "Arial-Bold"

/-- get_font_size embeds VideoSplitter._get_font_size (dict lookup, default 28). -/
def get_font_size (style : String) : ℤ :=
  if style = styleStandard then 28
  else if style = styleMinimal then 24
  else if style = styleBold then 32
  else if style = styleOutline then 30
  else 28

/-- get_text_color embeds VideoSplitter._get_text_color (dict lookup, default white). -/
def get_text_color (style : String) : String :=
  if style = styleStandard then colorWhite
  else if style = styleMinimal then colorLightgray
  else if style = styleBold then colorWhite
  else if style = styleOutline then colorWhite
  else colorWhite

/-- get_stroke_color embeds VideoSplitter._get_stroke_color; the minimal entry of
the source dictionary is None, every other lookup (and the default) is black. -/
def get_stroke_color (style : String) : Option String :=
  if style = styleStandard then some colorBlack
  else if style = styleMinimal then none
  else if style = styleBold then some colorBlack
  else if style = styleOutline then some colorBlack
  else some colorBlack

/-- get_stroke_width embeds VideoSplitter._get_stroke_width (dict lookup, default 1). -/
def get_stroke_width (style : String) : ℤ :=
  if style = styleStandard then 1
  else if style = styleMinimal then 0
  else if style = styleBold then 2
  else if style = styleOutline then 3
  else 1

/-- get_font embeds VideoSplitter._get_font (dict lookup, default Arial). -/
def get_font (style : String) : String :=
  if style = styleStandard then fontArial
  else if style = styleMinimal then fontHelvetica
  else if style = styleBold then fontArialBold
  else if style = styleOutline then fontArial
  else fontArial

/-- silenceStep embeds one iteration of the chunk loop in
VideoSplitter._detect_silence_boundaries. The state is the pair of the boundary
list built so far and current_start; the chunk endpoints are in milliseconds.
With chunk_duration below min_duration nothing happens; within the window the
interval from current_start to the chunk end is emitted; above max_duration the
span of chunk_duration seconds after current_start is cut into
ceil(chunk_duration / max_duration) equal slices and current_start moves to the
end of the last slice. -/
def silenceStep (mn mx : ℚ) (st : List (ℚ × ℚ) × ℚ) (chunk : ℚ × ℚ) :
    List (ℚ × ℚ) × ℚ :=
  let d : ℚ := (chunk.2 - chunk.1) / 1000
  if mn ≤ d then
    if d ≤ mx then
      (st.1 ++ [(st.2, chunk.2 / 1000)], chunk.2 / 1000)
    else
      let n : ℕ := ⌈d / mx⌉₊
      let sd : ℚ := d / (n : ℚ)
      (st.1 ++ (List.range n).map (fun i => (st.2 + (i : ℚ) * sd, st.2 + ((i : ℚ) + 1) * sd)),
        st.2 + (n : ℚ) * sd)
  else st

/-- detect_silence_boundaries embeds VideoSplitter._detect_silence_boundaries as a
function of the non-silent chunks pydub's detect_nonsilent returned (start and
end in milliseconds), folding the loop body over them from ([], 0). -/
def detect_silence_boundaries (mn mx : ℚ) (chunks : List (ℚ × ℚ)) : List (ℚ × ℚ) :=
  (chunks.foldl (silenceStep mn mx) ([], 0)).1

/-- equalStep embeds one iteration of the while loop body of
VideoSplitter._calculate_equal_boundaries, with the boundary list kept in
reverse order so that the Python pop/append on the last element acts on the
head. A final piece shorter than min_duration is merged into the previous
interval when one exists. -/
def equalStep (mn start e : ℚ) : List (ℚ × ℚ) → List (ℚ × ℚ)
  | [] => [(start, e)]
  | prev :: rest =>
    if e - start < mn then (prev.1, e) :: rest
    else (start, e) :: prev :: rest

/-- equalLoop embeds the while loop of VideoSplitter._calculate_equal_boundaries:
while start < total_duration, cut at min(start + max_duration, total_duration),
merge a too-short final piece into the previous interval, and advance start to
the cut. The fuel argument only drives the recursion; any fuel large enough for
the loop to reach total is exact (the source loop would not terminate for a
non-positive max_duration, which no claim exercises). -/
def equalLoop (total mn mx : ℚ) : ℕ → ℚ → List (ℚ × ℚ) → List (ℚ × ℚ)
  | 0, _, acc => acc.reverse
  | fuel + 1, start, acc =>
    if start < total then
      equalLoop total mn mx fuel (min (start + mx) total)
        (equalStep mn start (min (start + mx) total) acc)
    else acc.reverse

/-- calculate_equal_boundaries embeds VideoSplitter._calculate_equal_boundaries,
running the loop from start = 0 with an empty list and enough fuel. -/
def calculate_equal_boundaries (total mn mx : ℚ) : List (ℚ × ℚ) :=
  equalLoop total mn mx (⌈total / mx⌉₊ + 2) 0 []

/-- calculate_clip_boundaries embeds VideoSplitter._calculate_clip_boundaries as a
function of the signals the two detectors returned. The scene branch calls
self._merge_scenes_to_duration, a method defined nowhere in the repository, so
in Python a non-empty scene boundary list raises AttributeError there; that
outcome is modelled as none. Otherwise the silence boundaries are returned when
non-empty, and the equal split is the final fallback. -/
def calculate_clip_boundaries (sceneBoundaries : List ℚ) (chunks : List (ℚ × ℚ))
    (mn mx total : ℚ) : Option (List (ℚ × ℚ)) :=
  if ¬ sceneBoundaries.isEmpty then none
  else if ¬ (detect_silence_boundaries mn mx chunks).isEmpty then
    some (detect_silence_boundaries mn mx chunks)
  else some (calculate_equal_boundaries total mn mx)

/-- captionStep embeds one iteration of the subtitle filter loop of
VideoSplitter._add_captions_to_clip: keep an entry exactly when its end is past
the clip start and its start is before the clip end, shift it by the clip start
and clamp it into the clip-local window, keeping the text. -/
def captionStep (start_time clip_duration : ℚ) (acc : List Caption) (sub : Caption) :
    List Caption :=
  if start_time < sub.stop ∧ sub.start < start_time + clip_duration then
    acc ++ [⟨max 0 (sub.start - start_time), min clip_duration (sub.stop - start_time), sub.text⟩]
  else acc

/-- add_captions_filter embeds the clip_subtitles computation of
VideoSplitter._add_captions_to_clip, folding the filter loop over the parsed
subtitle list. -/
def add_captions_filter (subs : List Caption) (start_time clip_duration : ℚ) :
    List Caption :=
  subs.foldl (captionStep start_time clip_duration) []

/-- Chain2 a l b: the intervals of l tile the segment from a to b without gaps:
the first interval starts at a, each interval starts where the previous one
ended, and the last one ends at b. -/
def Chain2 : ℚ → List (ℚ × ℚ) → ℚ → Prop
  | a, [], b => a = b
  | a, p :: rest, b => p.1 = a ∧ Chain2 p.2 rest b

/-- RevChain b l: l is a reversed gap-free tiling reaching from 0 up to b. -/
def RevChain : ℚ → List (ℚ × ℚ) → Prop
  | b, [] => b = 0
  | b, p :: rest => p.2 = b ∧ RevChain p.1 rest

/-- helloText: the caption text of the first block of the abort counterexample. -/
def helloText : PyStr := ['h', 'e', 'l', 'l', 'o']

/-- byeText: the caption text of the third block of the abort counterexample. -/
def byeText : PyStr := ['b', 'y', 'e']

/-- xxText: the caption text of the malformed-timestamp counterexample. -/
def xxText : PyStr := ['x', 'x']

/-- srtAbortStr: an SRT transcript whose middle block has a time line without the
arrow separator, while the first and third blocks are structurally well formed
(their time tokens parse to 0.0 through the fallback of _time_to_seconds). -/
def srtAbortStr : String :=
  "1\naaa --> bbb\nhello\n\n2\nbadtimeline\nworld\n\n3\nccc --> ddd\nbye"

/-- srtZeroStr: a transcript with one structurally well-formed block whose two
time tokens are both unparsable, so both timestamps fall back to 0.0. -/
def srtZeroStr : String := "1\nbad --> worse\nxx"

/-- shortBlock: a block with a single line, fewer than the three required. -/
def shortBlock : PyStr := ['o', 'n', 'e']

/-- badToken: a time token with no colon-separated fields. -/
def badToken : PyStr := ['b', 'a', 'd']

lemma chain2_snoc (p : ℚ × ℚ) : ∀ (l : List (ℚ × ℚ)) (a : ℚ),
    Chain2 a l p.1 → Chain2 a (l ++ [p]) p.2 := by
  intro l
  induction l with
  | nil =>
    intro a h
    rw [Chain2] at h
    simp only [List.nil_append]
    exact ⟨h.symm, rfl⟩
  | cons q rest ih =>
    intro a h
    rw [Chain2] at h
    rw [List.cons_append, Chain2]
    exact ⟨h.1, ih q.2 h.2⟩

lemma revChain_chain2 : ∀ (l : List (ℚ × ℚ)) (b : ℚ),
    RevChain b l → Chain2 0 l.reverse b := by
  intro l
  induction l with
  | nil =>
    intro b h
    rw [RevChain] at h
    simpa [Chain2] using h.symm
  | cons p rest ih =>
    intro b h
    rw [RevChain] at h
    rw [List.reverse_cons, ← h.1]
    exact chain2_snoc p rest.reverse 0 (ih p.1 h.2)

lemma chain2_le_first : ∀ (l : List (ℚ × ℚ)) (a b : ℚ),
    Chain2 a l b → (∀ p ∈ l, p.1 ≤ p.2) → ∀ p ∈ l, a ≤ p.1 := by
  intro l
  induction l with
  | nil => intro a b _ _ p hp; simp at hp
  | cons q rest ih =>
    intro a b hc hpos p hp
    rw [Chain2] at hc
    rcases List.mem_cons.mp hp with h | h
    · rw [h, hc.1]
    · have h1 : q.2 ≤ p.1 :=
        ih q.2 b hc.2 (fun r hr => hpos r (List.mem_cons_of_mem q hr)) p h
      have h2 : q.1 ≤ q.2 := hpos q (List.mem_cons_self q rest)
      linarith [hc.1 ▸ le_trans h2 h1]

lemma chain2_pairwise : ∀ (l : List (ℚ × ℚ)) (a b : ℚ),
    Chain2 a l b → (∀ p ∈ l, p.1 ≤ p.2) →
    List.Pairwise (fun p q => p.2 ≤ q.1) l := by
  intro l
  induction l with
  | nil => intro a b _ _; exact List.Pairwise.nil
  | cons q rest ih =>
    intro a b hc hpos
    rw [Chain2] at hc
    refine List.Pairwise.cons ?_ (ih q.2 b hc.2 (fun r hr => hpos r (List.mem_cons_of_mem q hr)))
    intro p hp
    exact chain2_le_first rest q.2 b hc.2 (fun r hr => hpos r (List.mem_cons_of_mem q hr)) p hp

lemma equalStep_append (mn start e : ℚ) (acc : List (ℚ × ℚ)) (h : ¬ e - start < mn) :
    equalStep mn start e acc = (start, e) :: acc := by
  cases acc with
  | nil => rfl
  | cons prev rest => simp [equalStep, h]

lemma equalLoop_exit (total mn mx start : ℚ) (acc : List (ℚ × ℚ)) (h : ¬ start < total) :
    ∀ fuel, equalLoop total mn mx fuel start acc = acc.reverse := by
  intro fuel
  cases fuel with
  | zero => rfl
  | succ n => simp [equalLoop, h]

lemma reverse_dropLast (l : List (ℚ × ℚ)) : l.reverse.dropLast = l.tail.reverse := by
  cases l with
  | nil => rfl
  | cons p rest => simp

lemma equalLoop_spec (total mn mx : ℚ) (hmn : 0 < mn) (hle : mn ≤ mx) :
    ∀ (fuel : ℕ) (start : ℚ) (acc : List (ℚ × ℚ)),
      RevChain start acc →
      (∀ p ∈ acc, p.2 - p.1 = mx) →
      start ≤ total →
      total - start ≤ (fuel : ℚ) * mx →
      ∃ accf,
        equalLoop total mn mx fuel start acc = accf.reverse ∧
        RevChain total accf ∧
        (∀ p ∈ accf.tail, p.2 - p.1 = mx) ∧
        (∀ p ∈ accf, 0 < p.2 - p.1 ∧ p.2 - p.1 < mx + mn) ∧
        (mn ≤ total → ∀ p ∈ accf, mn ≤ p.2 - p.1) ∧
        (0 < total → accf ≠ []) := by
  have hmx : 0 < mx := lt_of_lt_of_le hmn hle
  intro fuel
  induction fuel with
  | zero =>
    intro start acc hchain hdur hse hfuel
    have hstart : start = total := by
      have : total - start ≤ 0 := by simpa using hfuel
      linarith
    subst hstart
    refine ⟨acc, by rw [equalLoop], hchain, ?_, ?_, ?_, ?_⟩
    · intro p hp; exact hdur p (List.mem_of_mem_tail hp)
    · intro p hp
      rw [hdur p hp]
      exact ⟨hmx, by linarith⟩
    · intro _ p hp
      rw [hdur p hp]
      exact hle
    · intro htot hnil
      subst hnil
      rw [RevChain] at hchain
      linarith
  | succ fuel ih =>
    intro start acc hchain hdur hse hfuel
    by_cases hlt : start < total
    · by_cases hend : total ≤ start + mx
      · -- final iteration: the cut lands on total and the loop exits next
        have he : min (start + mx) total = total := min_eq_right hend
        rw [equalLoop, if_pos hlt, he,
          equalLoop_exit total mn mx total (equalStep mn start total acc) (lt_irrefl total) fuel]
        cases acc with
        | nil =>
          have hstart0 : start = 0 := by rw [RevChain] at hchain; exact hchain
          refine ⟨[(start, total)], rfl, ?_, ?_, ?_, ?_, ?_⟩
          · rw [RevChain]; exact ⟨rfl, hchain⟩
          · intro p hp; simp at hp
          · intro p hp
            rcases List.mem_singleton.mp hp with rfl
            constructor
            · simp only
              linarith
            · simp only
              linarith
          · intro htot p hp
            rcases List.mem_singleton.mp hp with rfl
            simp only
            linarith
          · intro _ h; simp at h
        | cons prev rest =>
          rw [RevChain] at hchain
          by_cases hm : total - start < mn
          · -- merge branch
            have hstep : equalStep mn start total (prev :: rest) = (prev.1, total) :: rest := by
              simp [equalStep, hm]
            rw [hstep]
            have hprev : prev.2 - prev.1 = mx := hdur prev (List.mem_cons_self prev rest)
            refine ⟨(prev.1, total) :: rest, rfl, ?_, ?_, ?_, ?_, ?_⟩
            · rw [RevChain]; exact ⟨rfl, hchain.2⟩
            · intro p hp; exact hdur p (List.mem_cons_of_mem prev hp)
            · intro p hp
              rcases List.mem_cons.mp hp with rfl | h
              · constructor
                · simp only
                  linarith [hchain.1]
                · simp only
                  linarith [hchain.1]
              · rw [hdur p (List.mem_cons_of_mem prev h)]
                exact ⟨hmx, by linarith⟩
            · intro htot p hp
              rcases List.mem_cons.mp hp with rfl | h
              · simp only
                linarith [hchain.1]
              · rw [hdur p (List.mem_cons_of_mem prev h)]
                exact hle
            · intro _ h; simp at h
          · -- the final piece is long enough and is appended on its own
            have hstep : equalStep mn start total (prev :: rest) = (start, total) :: prev :: rest := by
              simp [equalStep, hm]
            rw [hstep]
            refine ⟨(start, total) :: prev :: rest, rfl, ?_, ?_, ?_, ?_, ?_⟩
            · rw [RevChain]; exact ⟨rfl, hchain⟩
            · intro p hp; exact hdur p hp
            · intro p hp
              rcases List.mem_cons.mp hp with rfl | h
              · constructor
                · simp only
                  linarith
                · simp only
                  linarith
              · rw [hdur p h]
                exact ⟨hmx, by linarith⟩
            · intro htot p hp
              rcases List.mem_cons.mp hp with rfl | h
              · simp only
                linarith
              · rw [hdur p h]
                exact hle
            · intro _ h; simp at h
      · -- a full step of length mx, stay in the loop
        push_neg at hend
        have he : min (start + mx) total = start + mx := min_eq_left (le_of_lt hend)
        have hnm : ¬ (start + mx - start < mn) := by
          intro h
          have : start + mx - start = mx := by ring
          rw [this] at h
          linarith
        rw [equalLoop, if_pos hlt, he, equalStep_append mn start (start + mx) acc hnm]
        have hch : RevChain (start + mx) ((start, start + mx) :: acc) := by
          rw [RevChain]; exact ⟨rfl, hchain⟩
        have hd : ∀ p ∈ (start, start + mx) :: acc, p.2 - p.1 = mx := by
          intro p hp
          rcases List.mem_cons.mp hp with rfl | h
          · simp only
            ring
          · exact hdur p h
        have hf : total - (start + mx) ≤ (fuel : ℚ) * mx := by
          have := hfuel
          push_cast at this ⊢
          linarith
        exact ih (start + mx) ((start, start + mx) :: acc) hch hd (le_of_lt hend) hf
    · -- the loop condition fails immediately
      have hstart : start = total := le_antisymm hse (not_lt.mp hlt)
      subst hstart
      rw [equalLoop, if_neg hlt]
      refine ⟨acc, rfl, hchain, ?_, ?_, ?_, ?_⟩
      · intro p hp; exact hdur p (List.mem_of_mem_tail hp)
      · intro p hp
        rw [hdur p hp]
        exact ⟨hmx, by linarith⟩
      · intro _ p hp
        rw [hdur p hp]
        exact hle
      · intro htot hnil
        subst hnil
        rw [RevChain] at hchain
        linarith

lemma calculate_equal_boundaries_spec (total mn mx : ℚ)
    (h0 : 0 < total) (h1 : 0 < mn) (h2 : mn ≤ mx) :
    ∃ accf, calculate_equal_boundaries total mn mx = accf.reverse ∧
      RevChain total accf ∧
      (∀ p ∈ accf.tail, p.2 - p.1 = mx) ∧
      (∀ p ∈ accf, 0 < p.2 - p.1 ∧ p.2 - p.1 < mx + mn) ∧
      (mn ≤ total → ∀ p ∈ accf, mn ≤ p.2 - p.1) ∧
      accf ≠ [] := by
  have hmx : 0 < mx := lt_of_lt_of_le h1 h2
  have hceil : total / mx ≤ ((⌈total / mx⌉₊ + 2 : ℕ) : ℚ) := by
    have h := Nat.le_ceil (total / mx)
    push_cast
    linarith
  have hfuel : total - 0 ≤ ((⌈total / mx⌉₊ + 2 : ℕ) : ℚ) * mx := by
    have h := mul_le_mul_of_nonneg_right hceil (le_of_lt hmx)
    rw [div_mul_cancel₀ total (ne_of_gt hmx)] at h
    linarith
  obtain ⟨accf, heq, hc, ht, hb, hm, hne⟩ :=
    equalLoop_spec total mn mx h1 h2 (⌈total / mx⌉₊ + 2) 0 []
      (by rw [RevChain]) (by intro p hp; simp at hp) (le_of_lt h0) hfuel
  exact ⟨accf, heq, hc, ht, hb, hm, hne h0⟩

/-- C1 (amended): for every totalDuration > 0 and 0 < minDuration <= maxDuration,
whenever no scene signals are present and the silence detector yields no
boundaries, _calculate_clip_boundaries returns the equal-split fallback, which
is non-empty, gap-free from 0 to totalDuration (Chain2), strictly increasing
inside every interval, and pairwise non-overlapping; as stated the claim is
false, since the silence-based strategy can end before totalDuration. -/
theorem clip_boundaries_fallback_partition (total mn mx : ℚ) (chunks : List (ℚ × ℚ))
    (h0 : 0 < total) (h1 : 0 < mn) (h2 : mn ≤ mx)
    (hsil : detect_silence_boundaries mn mx chunks = []) :
    calculate_clip_boundaries [] chunks mn mx total =
      some (calculate_equal_boundaries total mn mx) ∧
    calculate_equal_boundaries total mn mx ≠ [] ∧
    Chain2 0 (calculate_equal_boundaries total mn mx) total ∧
    (∀ p ∈ calculate_equal_boundaries total mn mx, p.1 < p.2) ∧
    List.Pairwise (fun p q => p.2 ≤ q.1) (calculate_equal_boundaries total mn mx) := by
  obtain ⟨accf, heq, hc, ht, hb, hm, hne⟩ := calculate_equal_boundaries_spec total mn mx h0 h1 h2
  have hpos : ∀ p ∈ calculate_equal_boundaries total mn mx, p.1 < p.2 := by
    rw [heq]
    intro p hp
    have := (hb p (List.mem_reverse.mp hp)).1
    linarith
  refine ⟨?_, ?_, ?_, hpos, ?_⟩
  · simp [calculate_clip_boundaries, hsil]
  · rw [heq]
    simpa using hne
  · rw [heq]
    exact revChain_chain2 accf total hc
  · exact chain2_pairwise (calculate_equal_boundaries total mn mx) 0 total
      (heq ▸ revChain_chain2 accf total hc) (fun p hp => le_of_lt (hpos p hp))

/-- C1 witness: the fallback partition property at a concrete input. -/
theorem clip_boundaries_fallback_partition_witness :
    calculate_clip_boundaries [] [] 30 60 100 =
      some (calculate_equal_boundaries 100 30 60) ∧
    calculate_equal_boundaries 100 30 60 ≠ [] :=
  ⟨(clip_boundaries_fallback_partition 100 30 60 [] (by norm_num) (by norm_num)
      (by norm_num) rfl).1,
   (clip_boundaries_fallback_partition 100 30 60 [] (by norm_num) (by norm_num)
      (by norm_num) rfl).2.1⟩

/-- C1 counterexample: with a well-formed silence signal of a single 50 s
non-silent chunk in a 100 s video, the returned sequence ends at 50, not at
totalDuration = 100, so the union of the intervals is not all of the video. -/
theorem silence_last_end_cex :
    calculate_clip_boundaries [] [(0, 50000)] 30 60 100 = some [(0, 50)] ∧
    ¬ ((50 : ℚ) = 100) := by
  constructor
  · norm_num [calculate_clip_boundaries, detect_silence_boundaries, silenceStep,
      List.isEmpty]
  · norm_num

/-- C2: with any non-empty scene signal list, _calculate_clip_boundaries calls
self._merge_scenes_to_duration, a method defined nowhere in the repository, so
the Python call raises AttributeError instead of downgrading silently; the
embedding models that outcome as none. -/
theorem scene_branch_missing_method :
    calculate_clip_boundaries [10] [] 30 60 100 = none := by
  norm_num [calculate_clip_boundaries, List.isEmpty]

/-- C3 (amended): the code performs no fail-fast validation of the duration
contract: for totalDuration <= 0 the equal-split fallback silently returns the
empty boundary list and _calculate_clip_boundaries silently returns it wrapped
as a result, with no error raised. -/
theorem no_duration_validation (total mn mx : ℚ) (h : total ≤ 0) :
    calculate_equal_boundaries total mn mx = [] ∧
    calculate_clip_boundaries [] [] mn mx total = some [] := by
  have hempty : calculate_equal_boundaries total mn mx = [] := by
    simp only [calculate_equal_boundaries, equalLoop]
    rw [if_neg (by intro hc; exact absurd h (not_le.mpr hc))]
    rfl
  refine ⟨hempty, ?_⟩
  simp [calculate_clip_boundaries, detect_silence_boundaries, hempty]

/-- C3 witness: the silent empty results at totalDuration = -5. -/
theorem no_duration_validation_witness :
    calculate_equal_boundaries (-5) 30 60 = [] ∧
    calculate_clip_boundaries [] [] 30 60 (-5) = some [] :=
  no_duration_validation (-5) 30 60 (by norm_num)

/-- C3 counterexample: the claimed fail-fast never happens: totalDuration = 0
silently yields an empty boundary list (not an error), and the inverted window
minDuration = 60 > 30 = maxDuration is silently processed into merged
boundaries instead of being rejected. -/
theorem invalid_inputs_silent_cex :
    calculate_equal_boundaries 0 30 60 = [] ∧
    calculate_clip_boundaries [] [] 30 60 0 = some [] ∧
    calculate_equal_boundaries 100 60 30 = [(0, 100)] := by
  refine ⟨?_, ?_, ?_⟩
  · norm_num [calculate_equal_boundaries, equalLoop]
  · norm_num [calculate_clip_boundaries, detect_silence_boundaries,
      calculate_equal_boundaries, equalLoop, List.isEmpty]
  · have h4 : (⌈(100 : ℚ) / 30⌉₊) = 4 := by
      rw [Nat.ceil_eq_iff (by norm_num)]
      norm_num
    simp only [calculate_equal_boundaries, h4]
    norm_num [equalLoop, equalStep]

/-- C4: with totalDuration 125 and window (30, 60) the equal-split fallback
returns [(0,60),(60,125)], and the final loop iteration indeed merges the
5-second tail (120,125) into the preceding interval (60,120). -/
theorem equal_split_merge_scenario :
    calculate_equal_boundaries 125 30 60 = [(0, 60), (60, 125)] ∧
    equalStep 30 120 125 [(60, 120), (0, 60)] = [(60, 125), (0, 60)] := by
  constructor
  · have h3 : (⌈(125 : ℚ) / 60⌉₊) = 3 := by
      rw [Nat.ceil_eq_iff (by norm_num)]
      norm_num
    simp only [calculate_equal_boundaries, h3]
    norm_num [equalLoop, equalStep]
  · norm_num [equalStep]

/-- C6 (amended): for every totalDuration > 0 and 0 < minDuration <= maxDuration,
every interval of the equal-split fallback except the last has duration exactly
maxDuration; every interval has duration strictly below maxDuration + minDuration
(the merged last interval can exceed maxDuration, refuting the claimed bound);
and when totalDuration >= minDuration every interval, the last included, has
duration at least minDuration. -/
theorem equal_boundaries_duration_bounds (total mn mx : ℚ) (h0 : 0 < total)
    (h1 : 0 < mn) (h2 : mn ≤ mx) :
    (∀ p ∈ (calculate_equal_boundaries total mn mx).dropLast, p.2 - p.1 = mx) ∧
    (∀ p ∈ calculate_equal_boundaries total mn mx, p.2 - p.1 < mx + mn) ∧
    (mn ≤ total → ∀ p ∈ calculate_equal_boundaries total mn mx, mn ≤ p.2 - p.1) := by
  obtain ⟨accf, heq, hc, ht, hb, hm, hne⟩ := calculate_equal_boundaries_spec total mn mx h0 h1 h2
  refine ⟨?_, ?_, ?_⟩
  · rw [heq, reverse_dropLast]
    intro p hp
    exact ht p (List.mem_reverse.mp hp)
  · rw [heq]
    intro p hp
    exact (hb p (List.mem_reverse.mp hp)).2
  · rw [heq]
    intro htot p hp
    exact hm htot p (List.mem_reverse.mp hp)

/-- C6 witness: the duration bound applied to the merged last interval of the
125-second scenario. -/
theorem equal_boundaries_duration_bounds_witness : (125 : ℚ) - 60 < 60 + 30 := by
  have h := (equal_boundaries_duration_bounds 125 30 60 (by norm_num) (by norm_num)
    (by norm_num)).2.1 (60, 125)
  apply h
  have h3 : (⌈(125 : ℚ) / 60⌉₊) = 3 := by
    rw [Nat.ceil_eq_iff (by norm_num)]
    norm_num
  simp only [calculate_equal_boundaries, h3]
  norm_num [equalLoop, equalStep]

/-- C6 counterexample: in the 125-second scenario the merged last interval
(60, 125) has duration 65, strictly above maxDuration = 60, refuting the claim
that every interval has duration at most maxDuration. -/
theorem equal_split_max_exceeded_cex :
    calculate_equal_boundaries 125 30 60 = [(0, 60), (60, 125)] ∧
    ¬ ((125 : ℚ) - 60 ≤ 60) := by
  constructor
  · have h3 : (⌈(125 : ℚ) / 60⌉₊) = 3 := by
      rw [Nat.ceil_eq_iff (by norm_num)]
      norm_num
    simp only [calculate_equal_boundaries, h3]
    norm_num [equalLoop, equalStep]
  · norm_num

/-- C5 (amended): for a chunk of duration d seconds processed by the silence
strategy: if d is within [minDuration, maxDuration] the interval from the
running cursor to the chunk end is emitted directly; if d exceeds maxDuration
the d seconds after the cursor are subdivided into ceil(d / maxDuration)
equal-length slices, each of length d / ceil(d / maxDuration) <= maxDuration;
and a chunk with d below minDuration is skipped entirely, leaving both the
boundary list and the cursor unchanged regardless of any accumulated length
(emission resumes only when a single chunk itself reaches minDuration, which
refutes the claimed accumulate-until-minDuration behaviour). -/
theorem silence_step_spec (mn mx cur : ℚ) (acc : List (ℚ × ℚ)) (c : ℚ × ℚ)
    (d : ℚ) (hd : d = (c.2 - c.1) / 1000) (h1 : 0 < mn) (h2 : mn ≤ mx) :
    (d < mn → silenceStep mn mx (acc, cur) c = (acc, cur)) ∧
    (mn ≤ d → d ≤ mx →
      silenceStep mn mx (acc, cur) c = (acc ++ [(cur, c.2 / 1000)], c.2 / 1000)) ∧
    (mx < d →
      silenceStep mn mx (acc, cur) c =
        (acc ++ (List.range ⌈d / mx⌉₊).map (fun i =>
          (cur + (i : ℚ) * (d / (⌈d / mx⌉₊ : ℚ)),
           cur + ((i : ℚ) + 1) * (d / (⌈d / mx⌉₊ : ℚ)))),
         cur + d) ∧
      0 < ⌈d / mx⌉₊ ∧
      (∀ i ∈ List.range ⌈d / mx⌉₊,
        (cur + ((i : ℚ) + 1) * (d / (⌈d / mx⌉₊ : ℚ))) -
          (cur + (i : ℚ) * (d / (⌈d / mx⌉₊ : ℚ))) = d / (⌈d / mx⌉₊ : ℚ) ∧
        d / (⌈d / mx⌉₊ : ℚ) ≤ mx)) := by
  have hmx0 : 0 < mx := lt_of_lt_of_le h1 h2
  refine ⟨?_, ?_, ?_⟩
  · intro h
    simp only [silenceStep, ← hd]
    rw [if_neg (not_le.mpr h)]
  · intro ha hb
    simp only [silenceStep, ← hd]
    rw [if_pos ha, if_pos hb]
  · intro h
    have hd0 : 0 < d := lt_trans hmx0 h
    have hnpos : 0 < ⌈d / mx⌉₊ := Nat.ceil_pos.mpr (div_pos hd0 hmx0)
    have hnposQ : (0 : ℚ) < (⌈d / mx⌉₊ : ℚ) := by exact_mod_cast hnpos
    have hn0 : (⌈d / mx⌉₊ : ℚ) ≠ 0 := ne_of_gt hnposQ
    refine ⟨?_, hnpos, ?_⟩
    · simp only [silenceStep, ← hd]
      rw [if_pos (le_of_lt (lt_of_le_of_lt h2 h)), if_neg (not_le.mpr h)]
      congr 1
      field_simp
    · intro i hi
      constructor
      · ring
      · rw [div_le_iff₀ hnposQ, mul_comm]
        exact (div_le_iff₀ hmx0).mp (Nat.le_ceil (d / mx))

/-- C5 witness: a 20-second chunk under the 30-second minimum is skipped with
the state unchanged. -/
theorem silence_step_spec_witness :
    silenceStep 30 60 ([], 0) (0, 20000) = ([], 0) :=
  (silence_step_spec 30 60 0 [] (0, 20000) 20 (by norm_num) (by norm_num)
    (by norm_num)).1 (by norm_num)

/-- C5 counterexample: two consecutive chunks of 20 s and 25 s, each under the
30-second minimum, accumulate 45 s from the cursor, past the minimum, yet the
strategy still emits nothing, refuting the claimed emission once the
accumulated length reaches minDuration. -/
theorem silence_accumulation_cex :
    detect_silence_boundaries 30 60 [(0, 20000), (20000, 45000)] = [] ∧
    (30 : ℚ) ≤ ((45000 : ℚ) - 0) / 1000 := by
  constructor
  · norm_num [detect_silence_boundaries, silenceStep]
  · norm_num

lemma add_captions_go (st dur : ℚ) :
    ∀ (subs acc : List Caption),
      subs.foldl (captionStep st dur) acc =
        acc ++ (subs.filter (fun sub => decide (st < sub.stop ∧ sub.start < st + dur))).map
          (fun sub => ⟨max 0 (sub.start - st), min dur (sub.stop - st), sub.text⟩) := by
  intro subs
  induction subs with
  | nil => intro acc; simp
  | cons sub rest ih =>
    intro acc
    rw [List.foldl_cons, ih]
    by_cases hc : st < sub.stop ∧ sub.start < st + dur
    · simp [captionStep, hc]
    · simp [captionStep, hc]

/-- C7: the clip-local caption set is exactly the stable filter of the entries
overlapping the open interval of the clip (an entry is kept iff its end is past
the clip start and its start is before the clip end), each shifted by the clip
start and clamped into [0, clipDuration] with the text unchanged and the input
order preserved; and the entry (58, 63, hello) aligned to the clip (60, 120)
yields (0, 3, hello). -/
theorem align_to_clip_spec (subs : List Caption) (st dur : ℚ) (h : 0 < dur) :
    add_captions_filter subs st dur =
      (subs.filter (fun sub => decide (st < sub.stop ∧ sub.start < st + dur))).map
        (fun sub => ⟨max 0 (sub.start - st), min dur (sub.stop - st), sub.text⟩) ∧
    add_captions_filter [⟨58, 63, helloText⟩] 60 60 = [⟨0, 3, helloText⟩] := by
  constructor
  · simpa [add_captions_filter] using add_captions_go st dur subs []
  · norm_num [add_captions_filter, captionStep]

/-- C7 witness: the alignment scenario instance of the specification. -/
theorem align_to_clip_spec_witness :
    add_captions_filter [⟨58, 63, helloText⟩] 60 60 = [⟨0, 3, helloText⟩] :=
  (align_to_clip_spec [⟨58, 63, helloText⟩] 60 60 (by norm_num)).2

/-- C8 (amended): in the transcript parser a block with fewer than three lines is
skipped and parsing continues; but a time line that does not split into exactly
two parts around the arrow aborts the whole parse, returning only the entries
collected so far (later blocks are lost, refuting skip-and-continue); a wholly
unreadable transcript yields the empty sequence. -/
theorem parse_block_failure_modes :
    (∀ (block : PyStr) (rest : List PyStr) (acc : List Caption),
      (pySplit nlSep (pyStrip block)).length < 3 →
      parseBlocks (block :: rest) acc = parseBlocks rest acc) ∧
    (∀ (block : PyStr) (rest : List PyStr) (acc : List Caption) (l0 l1 l2 : PyStr)
      (tl : List PyStr),
      pySplit nlSep (pyStrip block) = l0 :: l1 :: l2 :: tl →
      (pySplit arrowSep l1).length ≠ 2 →
      parseBlocks (block :: rest) acc = acc) ∧
    parse_srt_file none = [] := by
  refine ⟨?_, ?_, rfl⟩
  · intro block rest acc hlen
    rcases hs : pySplit nlSep (pyStrip block) with _ | ⟨a, _ | ⟨b, tl⟩⟩
    · simp [parseBlocks, hs]
    · simp [parseBlocks, hs]
    · rcases tl with _ | ⟨c, tl2⟩
      · simp [parseBlocks, hs]
      · rw [hs] at hlen
        simp at hlen
        omega
  · intro block rest acc l0 l1 l2 tl hs hlen2
    rcases ha : pySplit arrowSep l1 with _ | ⟨x, _ | ⟨y, tl2⟩⟩
    · simp [parseBlocks, hs, ha]
    · simp [parseBlocks, hs, ha]
    · rcases tl2 with _ | ⟨z, tl3⟩
      · rw [ha] at hlen2
        simp at hlen2
      · simp [parseBlocks, hs, ha]

/-- C8 witness: a single-line block is skipped and parsing continues. -/
theorem parse_block_failure_modes_witness :
    parseBlocks [shortBlock] [] = parseBlocks [] [] :=
  parse_block_failure_modes.1 shortBlock [] [] (by decide)

/-- C8 counterexample: a transcript whose middle block lacks the arrow separator
keeps only the first block's entry: the well-formed third block (entry
(0, 0, bye)) is lost instead of parsing continuing with the remaining blocks. -/
theorem parse_srt_abort_cex :
    parse_srt_file (some srtAbortStr.data) = [⟨0, 0, helloText⟩] ∧
    ¬ ((⟨0, 0, byeText⟩ : Caption) ∈ parse_srt_file (some srtAbortStr.data)) := by
  constructor
  · decide
  · decide

/-- C9 (amended): resolving the minimal style yields fontSize 24, the text colour
string lightgray (written without a space), font Helvetica, no stroke colour and
stroke width 0. -/
theorem minimal_style_resolution :
    get_font_size styleMinimal = 24 ∧
    get_text_color styleMinimal = colorLightgray ∧
    get_font styleMinimal = fontHelvetica ∧
    get_stroke_color styleMinimal = none ∧
    get_stroke_width styleMinimal = 0 := by
  refine ⟨by decide, by decide, by decide, by decide, by decide⟩

/-- C9 counterexample: the resolved text colour string is lightgray, not the
claimed string with an inner space. -/
theorem minimal_color_string_cex :
    get_text_color styleMinimal = colorLightgray ∧
    ¬ (get_text_color styleMinimal = "light gray") := by
  constructor
  · decide
  · decide

/-- C10: a time token with the wrong number of colon fields is silently converted
to 0.0 by _time_to_seconds, and a structurally well-formed block with such
tokens is emitted by the parser as an entry with start = end = 0, violating the
start < end requirement of the data model. -/
theorem time_token_malformed_zero :
    (∀ s : PyStr, (pySplit colonSep s).length ≠ 3 → time_to_seconds s = 0) ∧
    time_to_seconds badToken = 0 ∧
    parse_srt_file (some srtZeroStr.data) = [⟨0, 0, xxText⟩] ∧
    ¬ ((⟨0, 0, xxText⟩ : Caption).start < (⟨0, 0, xxText⟩ : Caption).stop) := by
  refine ⟨?_, by decide, by decide, by norm_num⟩
  intro s hlen
  rcases hs : pySplit colonSep s with _ | ⟨a, _ | ⟨b, _ | ⟨c, tl⟩⟩⟩
  · simp [time_to_seconds, hs]
  · simp [time_to_seconds, hs]
  · simp [time_to_seconds, hs]
  · rcases tl with _ | ⟨e, tl2⟩
    · rw [hs] at hlen
      simp at hlen
    · simp [time_to_seconds, hs]

/-- C10 witness: a two-field time token converts to 0. -/
theorem time_token_malformed_zero_witness : time_to_seconds ['a', 'b'] = 0 :=
  time_token_malformed_zero.1 ['a', 'b'] (by decide)
